import Mathlib

/-
  Verification development for `examples/isometry.rs`.

  The program benchmarks three representations of a 3D rigid transform from
  the nalgebra library: `Isometry3<f64>` (unit quaternion + translation),
  `IsometryMatrix3<f64>` (3x3 rotation matrix + translation) and
  `Transform3<f64, TAffine>` (dense 4x4 homogeneous matrix).

  Modelling conventions:
  - `f64` values are modelled as real numbers (exact arithmetic); floating
    point rounding is abstracted away, so "equal within tolerance" claims are
    settled as exact equalities, which entail any tolerance bound.
  - the random source (`rand::thread_rng`) is modelled as an arbitrary stream
    `rng : Nat -> Real` of draws, indexed in the order the program makes them;
  - the wall clock (`std::time::SystemTime::now`) is modelled as an arbitrary
    stream `clock : Nat -> Rat` of readings (seconds), indexed in the order
    the program takes them; `duration_since` fails exactly when the earlier
    reading is larger, as documented for `SystemTime`.
  - library operations (nalgebra) are translated from their documented
    componentwise implementations.
-/

namespace IsometryBench

/-- 3-component vector of reals, modelling `nalgebra::Vector3<f64>`
(also used for `Point3<f64>`, which has the same data). -/
@[ext]
structure Vec3 where
  x : ℝ
  y : ℝ
  z : ℝ

/-- Componentwise vector addition. -/
def vadd (a b : Vec3) : Vec3 := ⟨a.x + b.x, a.y + b.y, a.z + b.z⟩

/-- Componentwise vector negation. -/
def vneg (a : Vec3) : Vec3 := ⟨-a.x, -a.y, -a.z⟩

/-- Scalar multiple of a vector (`Vector3 * f64`). -/
def vsmul (s : ℝ) (a : Vec3) : Vec3 := ⟨s * a.x, s * a.y, s * a.z⟩

/-- Cross product, as in `Vector3::cross`. -/
def cross (a b : Vec3) : Vec3 :=
  ⟨a.y * b.z - a.z * b.y, a.z * b.x - a.x * b.z, a.x * b.y - a.y * b.x⟩

/-- Squared Euclidean norm, as in `Vector3::norm_squared`. -/
def normSq3 (a : Vec3) : ℝ := a.x ^ 2 + a.y ^ 2 + a.z ^ 2

/-- The zero vector. -/
def vzero : Vec3 := ⟨0, 0, 0⟩

/-- Quaternion with scalar part `w` and vector part `(x, y, z)`, modelling
`nalgebra::UnitQuaternion<f64>` (the unit-norm invariant is carried as a
hypothesis where needed). -/
@[ext]
structure Quat where
  w : ℝ
  x : ℝ
  y : ℝ
  z : ℝ

/-- The identity quaternion. -/
def quatOne : Quat := ⟨1, 0, 0, 0⟩

/-- Vector (imaginary) part of a quaternion. -/
def quatVec (q : Quat) : Vec3 := ⟨q.x, q.y, q.z⟩

/-- Hamilton product, as in `Quaternion * Quaternion`. -/
def quatMul (p q : Quat) : Quat :=
  ⟨p.w * q.w - p.x * q.x - p.y * q.y - p.z * q.z,
   p.w * q.x + p.x * q.w + p.y * q.z - p.z * q.y,
   p.w * q.y - p.x * q.z + p.y * q.w + p.z * q.x,
   p.w * q.z + p.x * q.y - p.y * q.x + p.z * q.w⟩

/-- Quaternion conjugate; for a unit quaternion this is `inverse()`. -/
def quatConj (q : Quat) : Quat := ⟨q.w, -q.x, -q.y, -q.z⟩

/-- Squared quaternion norm. -/
def quatNormSq (q : Quat) : ℝ := q.w ^ 2 + q.x ^ 2 + q.y ^ 2 + q.z ^ 2

/-- Rotation of a vector by a quaternion, following nalgebra's
`UnitQuaternion::transform_vector`:
`t = 2 * (q.vector x v); result = t * q.scalar + q.vector x t + v`. -/
def quatRotate (q : Quat) (v : Vec3) : Vec3 :=
  let t := vsmul 2 (cross (quatVec q) v)
  vadd (vadd (vsmul q.w t) (cross (quatVec q) t)) v

/-- `UnitQuaternion::new(axisangle)` (= exp of half the axis-angle vector):
identity when the axis-angle vector is zero, otherwise scalar part
`cos(angle/2)` and vector part `sin(angle/2) * axis` where
`angle = norm(axisangle)` and `axis = axisangle / angle`. -/
noncomputable def quatNew (aa : Vec3) : Quat :=
  if normSq3 aa = 0 then quatOne
  else
    let angle := Real.sqrt (normSq3 aa)
    let q := vsmul (Real.sin (angle / 2) / angle) aa
    ⟨Real.cos (angle / 2), q.x, q.y, q.z⟩

/-- Row-major 3x3 matrix of reals, modelling `nalgebra::Rotation3<f64>`
(the orthonormality invariant is carried as a hypothesis where needed). -/
@[ext]
structure Rot3 where
  m11 : ℝ
  m12 : ℝ
  m13 : ℝ
  m21 : ℝ
  m22 : ℝ
  m23 : ℝ
  m31 : ℝ
  m32 : ℝ
  m33 : ℝ

/-- The identity 3x3 matrix. -/
def rotIdentity : Rot3 := ⟨1, 0, 0, 0, 1, 0, 0, 0, 1⟩

/-- Matrix-vector product. -/
def rotMulVec (m : Rot3) (v : Vec3) : Vec3 :=
  ⟨m.m11 * v.x + m.m12 * v.y + m.m13 * v.z,
   m.m21 * v.x + m.m22 * v.y + m.m23 * v.z,
   m.m31 * v.x + m.m32 * v.y + m.m33 * v.z⟩

/-- Matrix-matrix product. -/
def rotMul (a b : Rot3) : Rot3 :=
  ⟨a.m11 * b.m11 + a.m12 * b.m21 + a.m13 * b.m31,
   a.m11 * b.m12 + a.m12 * b.m22 + a.m13 * b.m32,
   a.m11 * b.m13 + a.m12 * b.m23 + a.m13 * b.m33,
   a.m21 * b.m11 + a.m22 * b.m21 + a.m23 * b.m31,
   a.m21 * b.m12 + a.m22 * b.m22 + a.m23 * b.m32,
   a.m21 * b.m13 + a.m22 * b.m23 + a.m23 * b.m33,
   a.m31 * b.m11 + a.m32 * b.m21 + a.m33 * b.m31,
   a.m31 * b.m12 + a.m32 * b.m22 + a.m33 * b.m32,
   a.m31 * b.m13 + a.m32 * b.m23 + a.m33 * b.m33⟩

/-- Matrix transpose; for a rotation matrix this is `Rotation3::inverse()`. -/
def rotTranspose (m : Rot3) : Rot3 :=
  ⟨m.m11, m.m21, m.m31, m.m12, m.m22, m.m32, m.m13, m.m23, m.m33⟩

/-- Rodrigues rotation matrix, following nalgebra's
`Rotation3::from_axis_angle` (for a nonzero angle). -/
noncomputable def fromAxisAngle (u : Vec3) (angle : ℝ) : Rot3 :=
  let s := Real.sin angle
  let c := Real.cos angle
  let omc := 1 - c
  ⟨u.x * u.x + (1 - u.x * u.x) * c,
   u.x * u.y * omc - u.z * s,
   u.x * u.z * omc + u.y * s,
   u.x * u.y * omc + u.z * s,
   u.y * u.y + (1 - u.y * u.y) * c,
   u.y * u.z * omc - u.x * s,
   u.x * u.z * omc - u.y * s,
   u.y * u.z * omc + u.x * s,
   u.z * u.z + (1 - u.z * u.z) * c⟩

/-- `Rotation3::new(axisangle)`: normalize the axis-angle vector into an
axis and an angle; identity when the angle is zero, Rodrigues otherwise. -/
noncomputable def rotNew (aa : Vec3) : Rot3 :=
  let angle := Real.sqrt (normSq3 aa)
  if angle = 0 then rotIdentity
  else fromAxisAngle (vsmul angle⁻¹ aa) angle

/-- Rotation matrix of a quaternion, following nalgebra's
`UnitQuaternion::to_rotation_matrix`. -/
def quatToRotMat (q : Quat) : Rot3 :=
  let ww := q.w * q.w
  let ii := q.x * q.x
  let jj := q.y * q.y
  let kk := q.z * q.z
  let ij := q.x * q.y * 2
  let wk := q.w * q.z * 2
  let wj := q.w * q.y * 2
  let ik := q.x * q.z * 2
  let jk := q.y * q.z * 2
  let wi := q.w * q.x * 2
  ⟨ww + ii - jj - kk, ij - wk, wj + ik,
   wk + ij, ww - ii + jj - kk, jk - wi,
   ik - wj, wi + jk, ww - ii - jj + kk⟩

/-- Quaternion-backed isometry, modelling `nalgebra::Isometry3<f64>`. -/
@[ext]
structure Iso3 where
  translation : Vec3
  rotation : Quat

/-- `Isometry3::from_parts(translation, rotation)`. -/
def isoFromParts (t : Vec3) (q : Quat) : Iso3 := ⟨t, q⟩

/-- `Isometry3 * Isometry3`: compose rotations, shift and add translations. -/
def isoMul (a b : Iso3) : Iso3 :=
  ⟨vadd a.translation (quatRotate a.rotation b.translation),
   quatMul a.rotation b.rotation⟩

/-- `Isometry3::inverse()`: conjugate quaternion, rotated negated
translation. -/
def isoInverse (a : Iso3) : Iso3 :=
  let r := quatConj a.rotation
  ⟨quatRotate r (vneg a.translation), r⟩

/-- `Isometry3 * Point3`: rotate then translate. -/
def isoTransformPoint (a : Iso3) (p : Vec3) : Vec3 :=
  vadd (quatRotate a.rotation p) a.translation

/-- `Isometry3::identity()`. -/
def isoIdentity : Iso3 := ⟨vzero, quatOne⟩

/-- Matrix-backed isometry, modelling `nalgebra::IsometryMatrix3<f64>`. -/
@[ext]
structure IsoM3 where
  translation : Vec3
  rotation : Rot3

/-- `IsometryMatrix3::from_parts(translation, rotation)`. -/
def isomFromParts (t : Vec3) (r : Rot3) : IsoM3 := ⟨t, r⟩

/-- `IsometryMatrix3 * IsometryMatrix3`. -/
def isomMul (a b : IsoM3) : IsoM3 :=
  ⟨vadd a.translation (rotMulVec a.rotation b.translation),
   rotMul a.rotation b.rotation⟩

/-- `IsometryMatrix3::inverse()`: transposed rotation, rotated negated
translation. -/
def isomInverse (a : IsoM3) : IsoM3 :=
  let r := rotTranspose a.rotation
  ⟨rotMulVec r (vneg a.translation), r⟩

/-- `IsometryMatrix3 * Point3`. -/
def isomTransformPoint (a : IsoM3) (p : Vec3) : Vec3 :=
  vadd (rotMulVec a.rotation p) a.translation

/-- `IsometryMatrix3::identity()`. -/
def isomIdentity : IsoM3 := ⟨vzero, rotIdentity⟩

/-- Row-major 4x4 matrix of reals, modelling `nalgebra::Matrix4<f64>`. -/
@[ext]
structure Mat4 where
  m11 : ℝ
  m12 : ℝ
  m13 : ℝ
  m14 : ℝ
  m21 : ℝ
  m22 : ℝ
  m23 : ℝ
  m24 : ℝ
  m31 : ℝ
  m32 : ℝ
  m33 : ℝ
  m34 : ℝ
  m41 : ℝ
  m42 : ℝ
  m43 : ℝ
  m44 : ℝ

/-- 4x4 matrix product. -/
def mat4Mul (a b : Mat4) : Mat4 :=
  ⟨a.m11 * b.m11 + a.m12 * b.m21 + a.m13 * b.m31 + a.m14 * b.m41,
   a.m11 * b.m12 + a.m12 * b.m22 + a.m13 * b.m32 + a.m14 * b.m42,
   a.m11 * b.m13 + a.m12 * b.m23 + a.m13 * b.m33 + a.m14 * b.m43,
   a.m11 * b.m14 + a.m12 * b.m24 + a.m13 * b.m34 + a.m14 * b.m44,
   a.m21 * b.m11 + a.m22 * b.m21 + a.m23 * b.m31 + a.m24 * b.m41,
   a.m21 * b.m12 + a.m22 * b.m22 + a.m23 * b.m32 + a.m24 * b.m42,
   a.m21 * b.m13 + a.m22 * b.m23 + a.m23 * b.m33 + a.m24 * b.m43,
   a.m21 * b.m14 + a.m22 * b.m24 + a.m23 * b.m34 + a.m24 * b.m44,
   a.m31 * b.m11 + a.m32 * b.m21 + a.m33 * b.m31 + a.m34 * b.m41,
   a.m31 * b.m12 + a.m32 * b.m22 + a.m33 * b.m32 + a.m34 * b.m42,
   a.m31 * b.m13 + a.m32 * b.m23 + a.m33 * b.m33 + a.m34 * b.m43,
   a.m31 * b.m14 + a.m32 * b.m24 + a.m33 * b.m34 + a.m34 * b.m44,
   a.m41 * b.m11 + a.m42 * b.m21 + a.m43 * b.m31 + a.m44 * b.m41,
   a.m41 * b.m12 + a.m42 * b.m22 + a.m43 * b.m32 + a.m44 * b.m42,
   a.m41 * b.m13 + a.m42 * b.m23 + a.m43 * b.m33 + a.m44 * b.m43,
   a.m41 * b.m14 + a.m42 * b.m24 + a.m43 * b.m34 + a.m44 * b.m44⟩

/-- Determinant of a 3x3 matrix given entrywise (first-row expansion). -/
def det3 (a b c d e f g h i : ℝ) : ℝ :=
  a * (e * i - f * h) - b * (d * i - f * g) + c * (d * h - e * g)

/-- Determinant of a 4x4 matrix (first-row cofactor expansion); nalgebra's
`do_inverse4` computes the same value from its cofactors. -/
def det4 (m : Mat4) : ℝ :=
  m.m11 * det3 m.m22 m.m23 m.m24 m.m32 m.m33 m.m34 m.m42 m.m43 m.m44
    - m.m12 * det3 m.m21 m.m23 m.m24 m.m31 m.m33 m.m34 m.m41 m.m43 m.m44
    + m.m13 * det3 m.m21 m.m22 m.m24 m.m31 m.m32 m.m34 m.m41 m.m42 m.m44
    - m.m14 * det3 m.m21 m.m22 m.m23 m.m31 m.m32 m.m33 m.m41 m.m42 m.m43

/-- Adjugate (transposed cofactor matrix) of a 4x4 matrix: the matrix of
cofactors nalgebra's `do_inverse4` fills in before scaling by `1 / det`. -/
def adj4 (m : Mat4) : Mat4 :=
  ⟨det3 m.m22 m.m23 m.m24 m.m32 m.m33 m.m34 m.m42 m.m43 m.m44,
   -det3 m.m12 m.m13 m.m14 m.m32 m.m33 m.m34 m.m42 m.m43 m.m44,
   det3 m.m12 m.m13 m.m14 m.m22 m.m23 m.m24 m.m42 m.m43 m.m44,
   -det3 m.m12 m.m13 m.m14 m.m22 m.m23 m.m24 m.m32 m.m33 m.m34,
   -det3 m.m21 m.m23 m.m24 m.m31 m.m33 m.m34 m.m41 m.m43 m.m44,
   det3 m.m11 m.m13 m.m14 m.m31 m.m33 m.m34 m.m41 m.m43 m.m44,
   -det3 m.m11 m.m13 m.m14 m.m21 m.m23 m.m24 m.m41 m.m43 m.m44,
   det3 m.m11 m.m13 m.m14 m.m21 m.m23 m.m24 m.m31 m.m33 m.m34,
   det3 m.m21 m.m22 m.m24 m.m31 m.m32 m.m34 m.m41 m.m42 m.m44,
   -det3 m.m11 m.m12 m.m14 m.m31 m.m32 m.m34 m.m41 m.m42 m.m44,
   det3 m.m11 m.m12 m.m14 m.m21 m.m22 m.m24 m.m41 m.m42 m.m44,
   -det3 m.m11 m.m12 m.m14 m.m21 m.m22 m.m24 m.m31 m.m32 m.m34,
   -det3 m.m21 m.m22 m.m23 m.m31 m.m32 m.m33 m.m41 m.m42 m.m43,
   det3 m.m11 m.m12 m.m13 m.m31 m.m32 m.m33 m.m41 m.m42 m.m43,
   -det3 m.m11 m.m12 m.m13 m.m21 m.m22 m.m23 m.m41 m.m42 m.m43,
   det3 m.m11 m.m12 m.m13 m.m21 m.m22 m.m23 m.m31 m.m32 m.m33⟩

/-- Scalar multiple of a 4x4 matrix. -/
def mat4Smul (s : ℝ) (m : Mat4) : Mat4 :=
  ⟨s * m.m11, s * m.m12, s * m.m13, s * m.m14,
   s * m.m21, s * m.m22, s * m.m23, s * m.m24,
   s * m.m31, s * m.m32, s * m.m33, s * m.m34,
   s * m.m41, s * m.m42, s * m.m43, s * m.m44⟩

/-- `Matrix4::try_inverse`, following nalgebra's `do_inverse4`: report no
result exactly when the determinant is zero, otherwise the cofactor matrix
scaled by the reciprocal determinant. -/
noncomputable def tryInverse4 (m : Mat4) : Option Mat4 :=
  if det4 m = 0 then none else some (mat4Smul (det4 m)⁻¹ (adj4 m))

/-- Generic affine transform, modelling
`nalgebra::Transform<f64, TAffine, 3>`: a dense 4x4 homogeneous matrix with
no structural guarantee. -/
@[ext]
structure Trans3 where
  matrix : Mat4

/-- `Transform3::from_matrix_unchecked`: wraps the matrix with no
validation of any kind. -/
def fromMatrixUnchecked (m : Mat4) : Trans3 := ⟨m⟩

/-- `Transform3 * Transform3`: product of the homogeneous matrices. -/
def transMul (a b : Trans3) : Trans3 := ⟨mat4Mul a.matrix b.matrix⟩

/-- `Transform3::try_inverse`: general 4x4 matrix inversion, which may
report no result. -/
noncomputable def transTryInverse (a : Trans3) : Option Trans3 :=
  Option.map fromMatrixUnchecked (tryInverse4 a.matrix)

/-- `Transform3::transform_point` on the `TAffine` path: apply the upper
3x3 block and add the fourth column (the bottom row, guaranteed
`(0,0,0,1)` for the matrices this program builds, plays no role). -/
def transTransformPoint (a : Trans3) (p : Vec3) : Vec3 :=
  ⟨a.matrix.m11 * p.x + a.matrix.m12 * p.y + a.matrix.m13 * p.z + a.matrix.m14,
   a.matrix.m21 * p.x + a.matrix.m22 * p.y + a.matrix.m23 * p.z + a.matrix.m24,
   a.matrix.m31 * p.x + a.matrix.m32 * p.y + a.matrix.m33 * p.z + a.matrix.m34⟩

/-- `Isometry3::to_homogeneous()`: the rotation matrix of the quaternion in
the upper-left 3x3 block, the translation in the fourth column, bottom row
`(0, 0, 0, 1)`. -/
def isoToHomogeneous (a : Iso3) : Mat4 :=
  let r := quatToRotMat a.rotation
  ⟨r.m11, r.m12, r.m13, a.translation.x,
   r.m21, r.m22, r.m23, a.translation.y,
   r.m31, r.m32, r.m33, a.translation.z,
   0, 0, 0, 1⟩

/-- `total_samples` in `main`. -/
def totalSamples : ℕ := 1000

/-- `sub_samples` in `main`. -/
def subSamples : ℕ := 100000

/-- The data constructed at the top of each outer iteration of `main`
(lines 41-63 of `examples/isometry.rs`). -/
structure IterData where
  iso1 : Iso3
  iso2 : Iso3
  isom1 : IsoM3
  isom2 : IsoM3
  trans1 : Trans3
  trans2 : Trans3

/-- One outer iteration's sample construction, reading the random stream at
indices `base, base+1, ..., base+13` in program order: for each of the two
transforms, three components and a scale for the axis-angle vector, then
three components for the translation. -/
noncomputable def iterData (rng : ℕ → ℝ) (base : ℕ) : IterData :=
  let axisangle1 := vsmul (rng (base + 3)) ⟨rng base, rng (base + 1), rng (base + 2)⟩
  let q1 := quatNew axisangle1
  let r1 := rotNew axisangle1
  let t1 : Vec3 := ⟨rng (base + 4), rng (base + 5), rng (base + 6)⟩
  let iso1 := isoFromParts t1 q1
  let axisangle2 := vsmul (rng (base + 10)) ⟨rng (base + 7), rng (base + 8), rng (base + 9)⟩
  let q2 := quatNew axisangle2
  let r2 := rotNew axisangle2
  let t2 : Vec3 := ⟨rng (base + 11), rng (base + 12), rng (base + 13)⟩
  let iso2 := isoFromParts t2 q2
  let isom1 := isomFromParts t1 r1
  let isom2 := isomFromParts t2 r2
  let _this_is_4x4_matrix_not_transform := isoToHomogeneous iso1
  let trans1 := fromMatrixUnchecked (isoToHomogeneous iso1)
  let trans2 := fromMatrixUnchecked (isoToHomogeneous iso2)
  ⟨iso1, iso2, isom1, isom2, trans1, trans2⟩

/-- The operations a benchmark loop body can perform after drawing its
random point. -/
inductive BenchOp where
  | compose
  | composeWithInverse
  | pointTransform
deriving DecidableEq

/-- Trace of the `Transform3` benchmark loop body (lines 96-101): compose,
then compose with the inverse only if `try_inverse` reports a result (the
skipped branch performs no operation), then transform the point. -/
noncomputable def transformBodyOps (t1 t2 : Trans3) : List BenchOp :=
  let transform := transMul t1 t2
  match transTryInverse transform with
  | some _ => [BenchOp.compose, BenchOp.composeWithInverse, BenchOp.pointTransform]
  | none => [BenchOp.compose, BenchOp.pointTransform]

/-- Trace of the `Isometry3` benchmark loop body (lines 109-113): the body
is straight-line code with no conditional. -/
def isometryBodyOps (a b : Iso3) : List BenchOp :=
  let iso := isoMul a b
  let inv := isoInverse iso
  let _c := isoMul iso inv
  [BenchOp.compose, BenchOp.composeWithInverse, BenchOp.pointTransform]

/-- Trace of the `IsometryMatrix3` benchmark loop body (lines 121-125): the
body is straight-line code with no conditional. -/
def isomBodyOps (a b : IsoM3) : List BenchOp :=
  let isom := isomMul a b
  let inv := isomInverse isom
  let _c := isomMul isom inv
  [BenchOp.compose, BenchOp.composeWithInverse, BenchOp.pointTransform]

/-- The `Transform3` inner benchmark loop (lines 95-102), run for `n`
iterations; each iteration draws a point from three random stream values
and discards every computed result (the program wraps them in `black_box`
purely to force evaluation). -/
noncomputable def transformInnerLoop (rng : ℕ → ℝ) (base : ℕ) (t1 t2 : Trans3) : ℕ → Unit
  | 0 => ()
  | n + 1 =>
    let _prev := transformInnerLoop rng base t1 t2 n
    let p : Vec3 := ⟨rng (base + 3 * n), rng (base + 3 * n + 1), rng (base + 3 * n + 2)⟩
    let transform := transMul t1 t2
    let _inv : Unit :=
      match transTryInverse transform with
      | some inverse => let _c := transMul transform inverse; ()
      | none => ()
    let _pt := transTransformPoint transform p
    ()

/-- The `Isometry3` inner benchmark loop (lines 108-114). -/
noncomputable def isoInnerLoop (rng : ℕ → ℝ) (base : ℕ) (a b : Iso3) : ℕ → Unit
  | 0 => ()
  | n + 1 =>
    let _prev := isoInnerLoop rng base a b n
    let p : Vec3 := ⟨rng (base + 3 * n), rng (base + 3 * n + 1), rng (base + 3 * n + 2)⟩
    let iso := isoMul a b
    let inverse := isoInverse iso
    let _c := isoMul iso inverse
    let _pt := isoTransformPoint iso p
    ()

/-- The `IsometryMatrix3` inner benchmark loop (lines 120-126). -/
noncomputable def isomInnerLoop (rng : ℕ → ℝ) (base : ℕ) (a b : IsoM3) : ℕ → Unit
  | 0 => ()
  | n + 1 =>
    let _prev := isomInnerLoop rng base a b n
    let p : Vec3 := ⟨rng (base + 3 * n), rng (base + 3 * n + 1), rng (base + 3 * n + 2)⟩
    let isom := isomMul a b
    let inverse := isomInverse isom
    let _c := isomMul isom inverse
    let _pt := isomTransformPoint isom p
    ()

/-- `SystemTime::duration_since(earlier)` followed by the program's
`unwrap()`, modelled fallibly: a result exactly when the earlier reading is
not later than this one (`SystemTime` is not monotonic), `none` modelling
the panic of `unwrap()` on `Err`. -/
def durationSince (now earlier : ℚ) : Option ℚ :=
  if earlier ≤ now then some (now - earlier) else none

/-- Random stream values consumed by one outer iteration: 14 for the two
sample transforms, 3 for the (unused) outer point, and 3 per inner
iteration of each of the three benchmark loops. -/
def rngPerIter : ℕ := 17 + 9 * subSamples

/-- One outer iteration of `main` (lines 40-130): build the samples, run
the three timed benchmark loops, and accumulate the three block durations.
All geometric results are discarded; only the clock readings (6 per outer
iteration, in program order) reach the accumulated totals. `none` models a
panic of one of the `unwrap()` calls. -/
noncomputable def outerStep (rng : ℕ → ℝ) (clock : ℕ → ℚ) (i : ℕ)
    (acc : ℚ × ℚ × ℚ) : Option (ℚ × ℚ × ℚ) :=
  let base := rngPerIter * i
  let d := iterData rng base
  let _p : Vec3 := ⟨rng (base + 14), rng (base + 15), rng (base + 16)⟩
  let _identity := isoMul d.iso1 (isoInverse d.iso1)
  let _usability : Unit :=
    match transTryInverse d.trans1 with
    | some _inverse => ()
    | none => ()
  let _block1 := transformInnerLoop rng (base + 17) d.trans1 d.trans2 subSamples
  let _block2 := isoInnerLoop rng (base + 17 + 3 * subSamples) d.iso1 d.iso2 subSamples
  let _block3 := isomInnerLoop rng (base + 17 + 6 * subSamples) d.isom1 d.isom2 subSamples
  Option.bind (durationSince (clock (6 * i + 1)) (clock (6 * i))) fun d1 =>
    Option.bind (durationSince (clock (6 * i + 3)) (clock (6 * i + 2))) fun d2 =>
      Option.bind (durationSince (clock (6 * i + 5)) (clock (6 * i + 4))) fun d3 =>
        some (acc.1 + d1, acc.2.1 + d2, acc.2.2 + d3)

/-- The outer sample loop, iterated `n` times starting from zero
accumulated durations. -/
noncomputable def outerLoop (rng : ℕ → ℝ) (clock : ℕ → ℚ) : ℕ → Option (ℚ × ℚ × ℚ)
  | 0 => some (0, 0, 0)
  | n + 1 => Option.bind (outerLoop rng clock n) (outerStep rng clock n)

/-- One printed line: `"<name> took <seconds> seconds"` (lines 132-143). -/
def fmtLine (name : String) (secs : ℚ) : String :=
  name ++ " took " ++ toString secs ++ " seconds"

/-- The whole program: run the outer loop `total_samples` times, then print
the three accumulated totals, one line per representation, in source order.
`none` models a panicked run (no normal output). -/
noncomputable def mainModel (rng : ℕ → ℝ) (clock : ℕ → ℚ) : Option (List String) :=
  Option.map
    (fun acc =>
      [fmtLine "Transform" acc.1, fmtLine "Isometry" acc.2.1,
       fmtLine "IsometryMatrix" acc.2.2])
    (outerLoop rng clock totalSamples)

/-- Process exit code: 0 on normal completion, 101 (the Rust panic exit
code) when a run panics. -/
noncomputable def exitCode (rng : ℕ → ℝ) (clock : ℕ → ℚ) : ℕ :=
  match mainModel rng clock with
  | some _ => 0
  | none => 101

/-- A process environment: a partial map from variable names to values. -/
def EnvMap : Type := String → Option String

/-- `std::env::set_var`. -/
def setVar (e : EnvMap) (k v : String) : EnvMap :=
  fun k2 => if k2 = k then some v else e k2

/-- The environment after the first statement of `main` (line 28):
`RUST_LOG` set to the fixed string `"info"`. -/
def envAfterInit (e : EnvMap) : EnvMap := setVar e "RUST_LOG" "info"

/-- The whole program including its environment interaction: set
`RUST_LOG`, let `env_logger::init()` read the resulting log filter (no log
statement is ever emitted afterwards), then run the benchmark. -/
noncomputable def mainModelWithEnv (e : EnvMap) (rng : ℕ → ℝ) (clock : ℕ → ℚ) :
    Option (List String) :=
  let e2 := envAfterInit e
  let _logFilter := e2 "RUST_LOG"
  mainModel rng clock

/-- The clock-only skeleton of one outer iteration: `outerStep` with every
random-dependent (and otherwise discarded) computation removed. -/
def pureStep (clock : ℕ → ℚ) (i : ℕ) (acc : ℚ × ℚ × ℚ) : Option (ℚ × ℚ × ℚ) :=
  Option.bind (durationSince (clock (6 * i + 1)) (clock (6 * i))) fun d1 =>
    Option.bind (durationSince (clock (6 * i + 3)) (clock (6 * i + 2))) fun d2 =>
      Option.bind (durationSince (clock (6 * i + 5)) (clock (6 * i + 4))) fun d3 =>
        some (acc.1 + d1, acc.2.1 + d2, acc.2.2 + d3)

/-- The clock-only skeleton of the outer loop. -/
def pureLoop (clock : ℕ → ℚ) : ℕ → Option (ℚ × ℚ × ℚ)
  | 0 => some (0, 0, 0)
  | n + 1 => Option.bind (pureLoop clock n) (pureStep clock n)

/-- An all-zero random stream, used to instantiate theorems. -/
def rngZero : ℕ → ℝ := fun _ => 0

/-- A constant clock stream (every block takes zero time). -/
def clockConst : ℕ → ℚ := fun _ => 0

/-- A clock stream that steps backwards between the first two readings. -/
def clockBad : ℕ → ℚ := fun n => if n = 0 then 1 else 0

/-- The all-zero affine transform (its matrix is singular). -/
def transZero : Trans3 := ⟨⟨0, 0, 0, 0, 0, 0, 0, 0, 0, 0, 0, 0, 0, 0, 0, 0⟩⟩

/-! ### Skeleton lemmas: the timing totals depend only on the clock -/

/-- Every random-dependent computation in an outer iteration is discarded,
so one outer step is its clock-only skeleton. -/
lemma outerStep_eq_pureStep (rng : ℕ → ℝ) (clock : ℕ → ℚ) (i : ℕ)
    (acc : ℚ × ℚ × ℚ) : outerStep rng clock i acc = pureStep clock i acc := rfl

/-- The outer loop is its clock-only skeleton. -/
lemma outerLoop_eq_pureLoop (rng : ℕ → ℝ) (clock : ℕ → ℚ) :
    ∀ n, outerLoop rng clock n = pureLoop clock n := by
  intro n
  induction n with
  | zero => rfl
  | succ n ih =>
    show Option.bind (outerLoop rng clock n) (outerStep rng clock n)
        = Option.bind (pureLoop clock n) (pureStep clock n)
    rw [ih]
    exact congrArg (Option.bind (pureLoop clock n))
      (funext fun acc => outerStep_eq_pureStep rng clock n acc)

/-- With clock readings that never step backwards, a single timing block
always unwraps successfully and adds the elapsed difference. -/
lemma pureStep_succeeds (clock : ℕ → ℚ) (h : ∀ n, clock n ≤ clock (n + 1))
    (i : ℕ) (acc : ℚ × ℚ × ℚ) :
    pureStep clock i acc =
      some (acc.1 + (clock (6 * i + 1) - clock (6 * i)),
        acc.2.1 + (clock (6 * i + 3) - clock (6 * i + 2)),
        acc.2.2 + (clock (6 * i + 5) - clock (6 * i + 4))) := by
  unfold pureStep durationSince
  rw [if_pos (h (6 * i)), if_pos (h (6 * i + 2)), if_pos (h (6 * i + 4))]
  rfl

/-- With clock readings that never step backwards, the whole outer loop
completes. -/
lemma pureLoop_succeeds (clock : ℕ → ℚ) (h : ∀ n, clock n ≤ clock (n + 1)) :
    ∀ n, ∃ acc, pureLoop clock n = some acc := by
  intro n
  induction n with
  | zero => exact ⟨(0, 0, 0), rfl⟩
  | succ n ih =>
    obtain ⟨acc, ha⟩ := ih
    refine ⟨(acc.1 + (clock (6 * n + 1) - clock (6 * n)),
      acc.2.1 + (clock (6 * n + 3) - clock (6 * n + 2)),
      acc.2.2 + (clock (6 * n + 5) - clock (6 * n + 4))), ?_⟩
    show Option.bind (pureLoop clock n) (pureStep clock n) = _
    rw [ha, Option.some_bind]
    exact pureStep_succeeds clock h n acc

/-- On the constant clock every block takes zero time and the loop
completes with zero totals. -/
lemma pureLoop_const : ∀ n, pureLoop clockConst n = some (0, 0, 0) := by
  intro n
  induction n with
  | zero => rfl
  | succ n ih =>
    show Option.bind (pureLoop clockConst n) (pureStep clockConst n) = _
    rw [ih, Option.some_bind, pureStep_succeeds clockConst (fun _ => le_refl 0)]
    norm_num [clockConst]

/-- On the backwards-stepping clock the very first timing block's unwrap
panics, and the panic propagates through the whole loop. -/
lemma pureLoop_bad : ∀ n, pureLoop clockBad (n + 1) = none := by
  intro n
  induction n with
  | zero =>
    show Option.bind (pureLoop clockBad 0) (pureStep clockBad 0) = none
    have h1 : pureLoop clockBad 0 = some (0, 0, 0) := rfl
    rw [h1, Option.some_bind]
    unfold pureStep durationSince clockBad
    norm_num
  | succ n ih =>
    show Option.bind (pureLoop clockBad (n + 1)) (pureStep clockBad (n + 1)) = none
    rw [ih, Option.none_bind]

/-! ### Geometry lemmas -/

/-- Rotating a vector by a unit quaternion agrees with multiplying by the
quaternion's rotation matrix. -/
lemma quatRotate_eq_rotMulVec (q : Quat) (v : Vec3) (h : quatNormSq q = 1) :
    quatRotate q v = rotMulVec (quatToRotMat q) v := by
  simp only [quatNormSq] at h
  refine Vec3.ext ?_ ?_ ?_
  · simp only [quatRotate, quatToRotMat, rotMulVec, quatVec, cross, vsmul, vadd]
    linear_combination (-v.x) * h
  · simp only [quatRotate, quatToRotMat, rotMulVec, quatVec, cross, vsmul, vadd]
    linear_combination (-v.y) * h
  · simp only [quatRotate, quatToRotMat, rotMulVec, quatVec, cross, vsmul, vadd]
    linear_combination (-v.z) * h

/-- Conjugation preserves the quaternion norm. -/
lemma quatNormSq_conj (q : Quat) : quatNormSq (quatConj q) = quatNormSq q := by
  simp only [quatNormSq, quatConj]
  ring

/-- A unit quaternion times its conjugate is the identity quaternion. -/
lemma quatMul_conj (q : Quat) (h : quatNormSq q = 1) :
    quatMul q (quatConj q) = quatOne := by
  simp only [quatNormSq] at h
  refine Quat.ext ?_ ?_ ?_ ?_ <;>
    simp only [quatMul, quatConj, quatOne]
  · linear_combination h
  · ring
  · ring
  · ring

/-- Matrix-vector multiplication is associative with the matrix product. -/
lemma rotMulVec_rotMulVec (a b : Rot3) (v : Vec3) :
    rotMulVec a (rotMulVec b v) = rotMulVec (rotMul a b) v := by
  refine Vec3.ext ?_ ?_ ?_ <;> simp only [rotMulVec, rotMul] <;> ring

/-- The identity matrix acts as the identity. -/
lemma rotMulVec_identity (v : Vec3) : rotMulVec rotIdentity v = v := by
  refine Vec3.ext ?_ ?_ ?_ <;> simp only [rotMulVec, rotIdentity] <;> ring

/-- The rotation matrix of the conjugate quaternion is the transpose. -/
lemma quatToRotMat_conj (q : Quat) :
    quatToRotMat (quatConj q) = rotTranspose (quatToRotMat q) := by
  refine Rot3.ext ?_ ?_ ?_ ?_ ?_ ?_ ?_ ?_ ?_ <;>
    simp only [quatToRotMat, quatConj, rotTranspose] <;> ring

/-- For a unit quaternion, the rotation matrix times the conjugate's
rotation matrix is the identity. -/
lemma rotMul_quatToRotMat_conj (q : Quat) (h : quatNormSq q = 1) :
    rotMul (quatToRotMat q) (quatToRotMat (quatConj q)) = rotIdentity := by
  simp only [quatNormSq] at h
  refine Rot3.ext ?_ ?_ ?_ ?_ ?_ ?_ ?_ ?_ ?_ <;>
    simp only [rotMul, quatToRotMat, quatConj, rotIdentity]
  · linear_combination (q.w ^ 2 + q.x ^ 2 + q.y ^ 2 + q.z ^ 2 + 1) * h
  · ring
  · ring
  · ring
  · linear_combination (q.w ^ 2 + q.x ^ 2 + q.y ^ 2 + q.z ^ 2 + 1) * h
  · ring
  · ring
  · ring
  · linear_combination (q.w ^ 2 + q.x ^ 2 + q.y ^ 2 + q.z ^ 2 + 1) * h

/-- Arithmetic core of `quatNormSq_quatNew`, stated over plain variables. -/
lemma quatNormSq_half (x y z θ s c : ℝ) (hθ : θ ^ 2 = x ^ 2 + y ^ 2 + z ^ 2)
    (hne : θ ≠ 0) (hsc : s ^ 2 + c ^ 2 = 1) :
    c ^ 2 + (s / θ * x) ^ 2 + (s / θ * y) ^ 2 + (s / θ * z) ^ 2 = 1 := by
  field_simp
  linear_combination (-(s ^ 2)) * hθ + θ ^ 2 * hsc

/-- A nonzero vector scaled by the reciprocal of its norm is a unit
vector. -/
lemma axis_normSq (x y z θ : ℝ) (hθ : θ ^ 2 = x ^ 2 + y ^ 2 + z ^ 2)
    (hne : θ ≠ 0) :
    (θ⁻¹ * x) ^ 2 + (θ⁻¹ * y) ^ 2 + (θ⁻¹ * z) ^ 2 = 1 := by
  field_simp
  linear_combination -hθ

/-- The quaternion built from an axis-angle vector is a unit quaternion. -/
lemma quatNormSq_quatNew (aa : Vec3) : quatNormSq (quatNew aa) = 1 := by
  by_cases h : normSq3 aa = 0
  · simp [quatNew, h, quatNormSq, quatOne]
  · have h0 : 0 ≤ normSq3 aa := by simp only [normSq3]; positivity
    have hsq : Real.sqrt (normSq3 aa) ^ 2 = normSq3 aa := Real.sq_sqrt h0
    have hne : Real.sqrt (normSq3 aa) ≠ 0 := by
      intro hz
      exact h (by rw [← hsq, hz]; norm_num)
    have hsq2 : Real.sqrt (normSq3 aa) ^ 2 = aa.x ^ 2 + aa.y ^ 2 + aa.z ^ 2 := by
      rw [hsq]; simp only [normSq3]
    simp only [quatNew, if_neg h, vsmul, quatNormSq]
    exact quatNormSq_half aa.x aa.y aa.z (Real.sqrt (normSq3 aa))
      (Real.sin (Real.sqrt (normSq3 aa) / 2)) (Real.cos (Real.sqrt (normSq3 aa) / 2))
      hsq2 hne (Real.sin_sq_add_cos_sq _)

/-- The Rodrigues matrix of a unit axis and an angle equals the rotation
matrix of the corresponding half-angle quaternion. -/
lemma fromAxisAngle_eq_quatToRotMat (u : Vec3) (θ : ℝ) (hn : normSq3 u = 1) :
    fromAxisAngle u θ =
      quatToRotMat
        ⟨Real.cos (θ / 2), Real.sin (θ / 2) * u.x, Real.sin (θ / 2) * u.y,
         Real.sin (θ / 2) * u.z⟩ := by
  simp only [normSq3] at hn
  have hsc := Real.sin_sq_add_cos_sq (θ / 2)
  have hS : Real.sin θ = 2 * Real.sin (θ / 2) * Real.cos (θ / 2) := by
    have h2 := Real.sin_two_mul (θ / 2)
    rwa [show 2 * (θ / 2) = θ by ring] at h2
  have hC : Real.cos θ = 1 - 2 * Real.sin (θ / 2) ^ 2 := by
    have h2 := Real.cos_two_mul (θ / 2)
    rw [show 2 * (θ / 2) = θ by ring] at h2
    rw [h2]
    linear_combination 2 * hsc
  refine Rot3.ext ?_ ?_ ?_ ?_ ?_ ?_ ?_ ?_ ?_ <;>
    simp only [fromAxisAngle, quatToRotMat, hS, hC]
  · linear_combination Real.sin (θ / 2) ^ 2 * hn - hsc
  · ring
  · ring
  · ring
  · linear_combination Real.sin (θ / 2) ^ 2 * hn - hsc
  · ring
  · ring
  · ring
  · linear_combination Real.sin (θ / 2) ^ 2 * hn - hsc

/-- The rotation matrix built from an axis-angle vector equals the rotation
matrix of the quaternion built from the same axis-angle vector. -/
lemma rotNew_eq_quatToRotMat (aa : Vec3) :
    rotNew aa = quatToRotMat (quatNew aa) := by
  by_cases h : normSq3 aa = 0
  · have hs : Real.sqrt (normSq3 aa) = 0 := by rw [h, Real.sqrt_zero]
    simp only [rotNew, quatNew, hs, if_pos h, if_true, reduceIte]
    refine Rot3.ext ?_ ?_ ?_ ?_ ?_ ?_ ?_ ?_ ?_ <;>
      simp [quatToRotMat, quatOne, rotIdentity]
  · have h0 : 0 ≤ normSq3 aa := by simp only [normSq3]; positivity
    have hsq : Real.sqrt (normSq3 aa) ^ 2 = normSq3 aa := Real.sq_sqrt h0
    have hne : Real.sqrt (normSq3 aa) ≠ 0 := by
      intro hz
      exact h (by rw [← hsq, hz]; norm_num)
    simp only [rotNew, quatNew, if_neg h, if_neg hne]
    rw [fromAxisAngle_eq_quatToRotMat (vsmul (Real.sqrt (normSq3 aa))⁻¹ aa)
      (Real.sqrt (normSq3 aa)) ?_]
    · congr 1
      refine Quat.ext ?_ ?_ ?_ ?_ <;> simp only [vsmul] <;> ring
    · have hsq2 : Real.sqrt (normSq3 aa) ^ 2 = aa.x ^ 2 + aa.y ^ 2 + aa.z ^ 2 := by
        rw [hsq]; simp only [normSq3]
      simp only [normSq3, vsmul]
      exact axis_normSq aa.x aa.y aa.z (Real.sqrt (normSq3 aa)) hsq2 hne

/-- A vector plus its negation is zero. -/
lemma vadd_vneg (t : Vec3) : vadd t (vneg t) = vzero := by
  refine Vec3.ext ?_ ?_ ?_ <;> simp only [vadd, vneg, vzero] <;> ring

/-- A quaternion-backed isometry with a unit rotation quaternion, composed
with its analytic inverse, is exactly the identity isometry. -/
lemma isoMul_isoInverse (t : Vec3) (q : Quat) (h : quatNormSq q = 1) :
    isoMul (isoFromParts t q) (isoInverse (isoFromParts t q)) = isoIdentity := by
  have hconj : quatNormSq (quatConj q) = 1 := by rw [quatNormSq_conj]; exact h
  refine Iso3.ext ?_ ?_
  · show vadd t (quatRotate q (quatRotate (quatConj q) (vneg t))) = vzero
    rw [quatRotate_eq_rotMulVec _ _ hconj, quatRotate_eq_rotMulVec _ _ h,
      rotMulVec_rotMulVec, rotMul_quatToRotMat_conj q h, rotMulVec_identity]
    exact vadd_vneg t
  · exact quatMul_conj q h

/-- A matrix-backed isometry with an orthonormal rotation matrix, composed
with its analytic inverse, is exactly the identity isometry. -/
lemma isomMul_isomInverse (t : Vec3) (R : Rot3)
    (hR : rotMul R (rotTranspose R) = rotIdentity) :
    isomMul (isomFromParts t R) (isomInverse (isomFromParts t R)) = isomIdentity := by
  refine IsoM3.ext ?_ ?_
  · show vadd t (rotMulVec R (rotMulVec (rotTranspose R) (vneg t))) = vzero
    rw [rotMulVec_rotMulVec, hR, rotMulVec_identity]
    exact vadd_vneg t
  · exact hR

/-- The three representations built from the same axis-angle vector and
translation act identically (exactly, in the real model) on every point. -/
lemma representations_agree (w t p : Vec3) :
    isoTransformPoint (isoFromParts t (quatNew w)) p
        = isomTransformPoint (isomFromParts t (rotNew w)) p ∧
      isoTransformPoint (isoFromParts t (quatNew w)) p
        = transTransformPoint
            (fromMatrixUnchecked (isoToHomogeneous (isoFromParts t (quatNew w)))) p := by
  have hq := quatNormSq_quatNew w
  constructor
  · show vadd (quatRotate (quatNew w) p) t = vadd (rotMulVec (rotNew w) p) t
    rw [quatRotate_eq_rotMulVec _ _ hq, rotNew_eq_quatToRotMat]
  · show vadd (quatRotate (quatNew w) p) t = _
    rw [quatRotate_eq_rotMulVec _ _ hq]
    refine Vec3.ext ?_ ?_ ?_ <;>
      simp only [transTransformPoint, fromMatrixUnchecked, isoToHomogeneous,
        isoFromParts, rotMulVec, vadd]

/-- The zero matrix is singular, so its inversion reports no result. -/
lemma transTryInverse_transZero : transTryInverse transZero = none := by
  have hdet : det4 transZero.matrix = 0 := by
    simp only [transZero, det4, det3]
    norm_num
  simp only [transTryInverse, tryInverse4, hdet, reduceIte]
  rfl

/-- The product of two zero affine transforms is the zero affine
transform. -/
lemma transMul_transZero : transMul transZero transZero = transZero := by
  ext <;> simp [transMul, transZero, mat4Mul]

/-- Projections of the per-iteration sample data, as built on lines 41-63:
the quaternion-backed isometry of the first sample. -/
lemma iterData_iso1 (rng : ℕ → ℝ) (base : ℕ) :
    (iterData rng base).iso1 =
      isoFromParts ⟨rng (base + 4), rng (base + 5), rng (base + 6)⟩
        (quatNew (vsmul (rng (base + 3)) ⟨rng base, rng (base + 1), rng (base + 2)⟩)) :=
  rfl

/-- The quaternion-backed isometry of the second sample. -/
lemma iterData_iso2 (rng : ℕ → ℝ) (base : ℕ) :
    (iterData rng base).iso2 =
      isoFromParts ⟨rng (base + 11), rng (base + 12), rng (base + 13)⟩
        (quatNew (vsmul (rng (base + 10)) ⟨rng (base + 7), rng (base + 8), rng (base + 9)⟩)) :=
  rfl

/-- The matrix-backed isometry of the first sample. -/
lemma iterData_isom1 (rng : ℕ → ℝ) (base : ℕ) :
    (iterData rng base).isom1 =
      isomFromParts ⟨rng (base + 4), rng (base + 5), rng (base + 6)⟩
        (rotNew (vsmul (rng (base + 3)) ⟨rng base, rng (base + 1), rng (base + 2)⟩)) :=
  rfl

/-- The matrix-backed isometry of the second sample. -/
lemma iterData_isom2 (rng : ℕ → ℝ) (base : ℕ) :
    (iterData rng base).isom2 =
      isomFromParts ⟨rng (base + 11), rng (base + 12), rng (base + 13)⟩
        (rotNew (vsmul (rng (base + 10)) ⟨rng (base + 7), rng (base + 8), rng (base + 9)⟩)) :=
  rfl

/-- The generic affine transform of the first sample. -/
lemma iterData_trans1 (rng : ℕ → ℝ) (base : ℕ) :
    (iterData rng base).trans1 =
      fromMatrixUnchecked (isoToHomogeneous (iterData rng base).iso1) :=
  rfl

/-- The generic affine transform of the second sample. -/
lemma iterData_trans2 (rng : ℕ → ℝ) (base : ℕ) :
    (iterData rng base).trans2 =
      fromMatrixUnchecked (isoToHomogeneous (iterData rng base).iso2) :=
  rfl

/-! ### The claims -/

/-- C1: for every axis-angle vector and translation produced in an outer
iteration, the quaternion-backed isometry, the matrix-backed isometry and
the generic affine transform built from those same parameters act
identically on every point (exactly in the real model, hence within any
tolerance). -/
theorem C1_three_representations_act_identically (rng : ℕ → ℝ) (base : ℕ) (p : Vec3) :
    (isoTransformPoint (iterData rng base).iso1 p
          = isomTransformPoint (iterData rng base).isom1 p ∧
        isoTransformPoint (iterData rng base).iso1 p
          = transTransformPoint (iterData rng base).trans1 p) ∧
      isoTransformPoint (iterData rng base).iso2 p
          = isomTransformPoint (iterData rng base).isom2 p ∧
        isoTransformPoint (iterData rng base).iso2 p
          = transTransformPoint (iterData rng base).trans2 p := by
  constructor
  · rw [iterData_iso1, iterData_isom1, iterData_trans1, iterData_iso1]
    exact representations_agree _ _ p
  · rw [iterData_iso2, iterData_isom2, iterData_trans2, iterData_iso2]
    exact representations_agree _ _ p

/-- C2: in either isometry representation, a rigid transform composed with
its analytic inverse is the identity transform (exactly in the real model,
hence within any tolerance); for the generic affine representation this
does not universally hold, since inversion can already fail on a singular
matrix. -/
theorem C2_compose_with_inverse_is_identity :
    (∀ (t : Vec3) (q : Quat), quatNormSq q = 1 →
        isoMul (isoFromParts t q) (isoInverse (isoFromParts t q)) = isoIdentity) ∧
      (∀ (t : Vec3) (R : Rot3), rotMul R (rotTranspose R) = rotIdentity →
        isomMul (isomFromParts t R) (isomInverse (isomFromParts t R)) = isomIdentity) ∧
      ∃ a : Trans3, transTryInverse a = none :=
  ⟨isoMul_isoInverse, isomMul_isomInverse, transZero, transTryInverse_transZero⟩

/-- Witness for C2 at a concrete unit quaternion and a concrete orthonormal
matrix. -/
theorem C2_witness :
    quatNormSq quatOne = 1 ∧
      rotMul rotIdentity (rotTranspose rotIdentity) = rotIdentity ∧
      isoMul (isoFromParts ⟨1, 2, 3⟩ quatOne)
          (isoInverse (isoFromParts ⟨1, 2, 3⟩ quatOne)) = isoIdentity ∧
      isomMul (isomFromParts ⟨1, 2, 3⟩ rotIdentity)
          (isomInverse (isomFromParts ⟨1, 2, 3⟩ rotIdentity)) = isomIdentity := by
  have h1 : quatNormSq quatOne = 1 := by simp [quatNormSq, quatOne]
  have h2 : rotMul rotIdentity (rotTranspose rotIdentity) = rotIdentity := by
    refine Rot3.ext ?_ ?_ ?_ ?_ ?_ ?_ ?_ ?_ ?_ <;>
      simp [rotMul, rotTranspose, rotIdentity]
  exact ⟨h1, h2, C2_compose_with_inverse_is_identity.1 ⟨1, 2, 3⟩ quatOne h1,
    C2_compose_with_inverse_is_identity.2.1 ⟨1, 2, 3⟩ rotIdentity h2⟩

/-- C3: in the affine benchmark loop body, inversion may report no result,
and exactly when it does the compose-with-inverse step is skipped (the
skipped branch performs no operation) while execution still proceeds to the
point-transformation step; when inversion returns a result the
compose-with-inverse step is performed. -/
theorem C3_affine_inversion_skip (t1 t2 : Trans3) :
    (transTryInverse (transMul t1 t2) = none →
        transformBodyOps t1 t2 = [BenchOp.compose, BenchOp.pointTransform]) ∧
      (∀ inv, transTryInverse (transMul t1 t2) = some inv →
        transformBodyOps t1 t2 =
          [BenchOp.compose, BenchOp.composeWithInverse, BenchOp.pointTransform]) ∧
      BenchOp.pointTransform ∈ transformBodyOps t1 t2 ∧
      ∃ u1 u2 : Trans3, transTryInverse (transMul u1 u2) = none := by
  refine ⟨?_, ?_, ?_, transZero, transZero, ?_⟩
  · intro h
    simp [transformBodyOps, h]
  · intro inv h
    simp [transformBodyOps, h]
  · cases h : transTryInverse (transMul t1 t2) with
    | none => simp [transformBodyOps, h]
    | some inv => simp [transformBodyOps, h]
  · rw [transMul_transZero]
    exact transTryInverse_transZero

/-- Witness for C3 at concrete (singular) affine transforms. -/
theorem C3_witness :
    transTryInverse (transMul transZero transZero) = none ∧
      transformBodyOps transZero transZero = [BenchOp.compose, BenchOp.pointTransform] := by
  have h : transTryInverse (transMul transZero transZero) = none := by
    rw [transMul_transZero]
    exact transTryInverse_transZero
  exact ⟨h, (C3_affine_inversion_skip transZero transZero).1 h⟩

/-- C4: for the two isometry representations, inversion is total — it has
the closed analytic form below for every constructed isometry, and the
benchmark loop bodies are straight-line code whose trace unconditionally
contains the compose-with-inverse step (no failure branch exists). -/
theorem C4_isometry_inversion_total (t : Vec3) (q : Quat) (R : Rot3)
    (a b : Iso3) (c d : IsoM3) :
    isoInverse (isoFromParts t q)
        = ⟨quatRotate (quatConj q) (vneg t), quatConj q⟩ ∧
      isomInverse (isomFromParts t R)
        = ⟨rotMulVec (rotTranspose R) (vneg t), rotTranspose R⟩ ∧
      isometryBodyOps a b
        = [BenchOp.compose, BenchOp.composeWithInverse, BenchOp.pointTransform] ∧
      isomBodyOps c d
        = [BenchOp.compose, BenchOp.composeWithInverse, BenchOp.pointTransform] :=
  ⟨rfl, rfl, rfl, rfl⟩

/-- C5: whenever all outer iterations complete, the program prints exactly
three lines, in order the Transform, Isometry and IsometryMatrix totals,
each of the form `<name> took <seconds> seconds` with the accumulated
duration, and nothing else. -/
theorem C5_output_is_three_lines (rng : ℕ → ℝ) (clock : ℕ → ℚ) (a b c : ℚ)
    (h : outerLoop rng clock totalSamples = some (a, b, c)) :
    mainModel rng clock =
        some [fmtLine "Transform" a, fmtLine "Isometry" b, fmtLine "IsometryMatrix" c] ∧
      ∀ out, mainModel rng clock = some out → out.length = 3 := by
  have h1 : mainModel rng clock =
      some [fmtLine "Transform" a, fmtLine "Isometry" b, fmtLine "IsometryMatrix" c] := by
    unfold mainModel
    rw [h]
    rfl
  refine ⟨h1, ?_⟩
  intro out hout
  rw [h1] at hout
  rw [← Option.some.inj hout]
  rfl

/-- Witness for C5 on the constant clock, where every accumulated total is
zero. -/
theorem C5_witness :
    mainModel rngZero clockConst =
      some [fmtLine "Transform" 0, fmtLine "Isometry" 0, fmtLine "IsometryMatrix" 0] := by
  have h : outerLoop rngZero clockConst totalSamples = some (0, 0, 0) := by
    rw [outerLoop_eq_pureLoop]
    exact pureLoop_const totalSamples
  exact (C5_output_is_three_lines rngZero clockConst 0 0 0 h).1

/-- C6: in every outer iteration the generic affine transform is exactly
`from_matrix_unchecked` of the isometry's homogeneous matrix, and
`from_matrix_unchecked` stores any matrix completely unvalidated. -/
theorem C6_unchecked_homogeneous_construction (rng : ℕ → ℝ) (base : ℕ) (m : Mat4) :
    (iterData rng base).trans1
        = fromMatrixUnchecked (isoToHomogeneous (iterData rng base).iso1) ∧
      (iterData rng base).trans2
        = fromMatrixUnchecked (isoToHomogeneous (iterData rng base).iso2) ∧
      (fromMatrixUnchecked m).matrix = m :=
  ⟨rfl, rfl, rfl⟩

/-- C7: each outer iteration's sample generator produces exactly two random
rigid transforms from the stated closed formulas over 14 fresh draws of the
random stream (axis-angle from three components scaled by a fourth,
translation from three components, twice), is total, and reads nothing but
those 14 draws — no persisted state. -/
theorem C7_sample_generation (rng rng2 : ℕ → ℝ) (base : ℕ) :
    (iterData rng base).iso1 =
        isoFromParts ⟨rng (base + 4), rng (base + 5), rng (base + 6)⟩
          (quatNew (vsmul (rng (base + 3)) ⟨rng base, rng (base + 1), rng (base + 2)⟩)) ∧
      (iterData rng base).iso2 =
        isoFromParts ⟨rng (base + 11), rng (base + 12), rng (base + 13)⟩
          (quatNew (vsmul (rng (base + 10))
            ⟨rng (base + 7), rng (base + 8), rng (base + 9)⟩)) ∧
      ((∀ k, k < 14 → rng (base + k) = rng2 (base + k)) →
        iterData rng base = iterData rng2 base) := by
  refine ⟨rfl, rfl, ?_⟩
  intro h
  have e0 := h 0 (by norm_num)
  have e1 := h 1 (by norm_num)
  have e2 := h 2 (by norm_num)
  have e3 := h 3 (by norm_num)
  have e4 := h 4 (by norm_num)
  have e5 := h 5 (by norm_num)
  have e6 := h 6 (by norm_num)
  have e7 := h 7 (by norm_num)
  have e8 := h 8 (by norm_num)
  have e9 := h 9 (by norm_num)
  have e10 := h 10 (by norm_num)
  have e11 := h 11 (by norm_num)
  have e12 := h 12 (by norm_num)
  have e13 := h 13 (by norm_num)
  simp only [Nat.add_zero] at e0
  unfold iterData
  rw [e0, e1, e2, e3, e4, e5, e6, e7, e8, e9, e10, e11, e12, e13]

/-- A random stream agreeing with the zero stream on the first 14 draws. -/
def rngZeroThenOne : ℕ → ℝ := fun n => if n < 14 then 0 else 1

/-- Witness for C7: two streams that agree on an iteration's 14 draws yield
the same samples. -/
theorem C7_witness : iterData rngZero 0 = iterData rngZeroThenOne 0 :=
  (C7_sample_generation rngZero rngZeroThenOne 0).2.2
    (fun k hk => by simp [rngZero, rngZeroThenOne, hk])

/-- C8 (amended): the exit code is zero and no unwrap panics provided the
clock readings never decrease during the run; the original claim fails
because `SystemTime` is not monotonic, so a backwards clock step between a
block's start and end readings makes `duration_since(start).unwrap()`
panic. -/
theorem C8_exit_zero_with_monotone_clock (rng : ℕ → ℝ) (clock : ℕ → ℚ)
    (h : ∀ n, clock n ≤ clock (n + 1)) :
    mainModel rng clock ≠ none ∧ exitCode rng clock = 0 := by
  obtain ⟨acc, ha⟩ := pureLoop_succeeds clock h totalSamples
  have hm : outerLoop rng clock totalSamples = some acc := by
    rw [outerLoop_eq_pureLoop]
    exact ha
  have hmm : mainModel rng clock =
      some [fmtLine "Transform" acc.1, fmtLine "Isometry" acc.2.1,
        fmtLine "IsometryMatrix" acc.2.2] := by
    unfold mainModel
    rw [hm]
    rfl
  constructor
  · rw [hmm]
    exact Option.some_ne_none _
  · unfold exitCode
    rw [hmm]

/-- Counterexample for C8 as stated: on a run whose second clock reading is
earlier than its first, the first timing block's unwrap panics and the exit
code is the Rust panic exit code, not zero. -/
theorem C8_counterexample : exitCode rngZero clockBad = 101 := by
  have h : outerLoop rngZero clockBad totalSamples = none := by
    rw [outerLoop_eq_pureLoop,
      show totalSamples = 999 + 1 by norm_num [totalSamples]]
    exact pureLoop_bad 999
  have hmm : mainModel rngZero clockBad = none := by
    unfold mainModel
    rw [h]
    rfl
  unfold exitCode
  rw [hmm]

/-- Witness for C8 (amended) on the constant clock. -/
theorem C8_witness :
    mainModel rngZero clockConst ≠ none ∧ exitCode rngZero clockConst = 0 :=
  C8_exit_zero_with_monotone_clock rngZero clockConst (fun _ => le_refl 0)

/-- C9: at start the program sets `RUST_LOG` to the fixed string `"info"`,
and the environment (hence the logging configuration) has no effect on the
printed output, which is produced by the same benchmark model
regardless. -/
theorem C9_rust_log_set_and_inert :
    (∀ e : EnvMap, envAfterInit e "RUST_LOG" = some "info") ∧
      (∀ (e1 e2 : EnvMap) (rng : ℕ → ℝ) (clock : ℕ → ℚ),
        mainModelWithEnv e1 rng clock = mainModelWithEnv e2 rng clock) ∧
      (∀ (e : EnvMap) (rng : ℕ → ℝ) (clock : ℕ → ℚ),
        mainModelWithEnv e rng clock = mainModel rng clock) := by
  refine ⟨?_, fun _ _ _ _ => rfl, fun _ _ _ => rfl⟩
  intro e
  simp [envAfterInit, setVar]

/-- C10: the printed output is a function of the clock readings alone — two
runs with the same clock readings print the same lines whatever the random
stream yields, and the output factors through the clock-only skeleton; no
geometric result flows into it. -/
theorem C10_output_depends_only_on_clock (rng1 rng2 : ℕ → ℝ) (clock : ℕ → ℚ) :
    mainModel rng1 clock = mainModel rng2 clock ∧
      mainModel rng1 clock =
        Option.map
          (fun acc =>
            [fmtLine "Transform" acc.1, fmtLine "Isometry" acc.2.1,
             fmtLine "IsometryMatrix" acc.2.2])
          (pureLoop clock totalSamples) := by
  constructor
  · unfold mainModel
    rw [outerLoop_eq_pureLoop, outerLoop_eq_pureLoop]
  · unfold mainModel
    rw [outerLoop_eq_pureLoop]

end IsometryBench
